import Mathlib

/-!
Shallow embedding of the pipe/operator composition engine of the repository
(`Pipe` class, operator factories, and `PipeManagerImpl.retry`), together with
theorems settling the specification's claims about it.

Conventions of the embedding:
* a JS `Error` is its message;
* a thrown JS value is either an `Error` instance or any other value,
  represented by its `String(...)` conversion;
* an operator invocation either returns a `PipeResult` or throws, modelled by
  the sum `OpOutcome`;
* `undefined` sentinels are `Option.none`; a rejected promise is
  `Except.error`;
* truthiness: an optional `Error` field is truthy exactly when present
  (Error objects are always truthy), an optional boolean flag is truthy
  exactly when present and `true`.
-/

namespace DvirusPipe

/-- A JS `Error` object, carrying its message. -/
structure Error where
  message : String
deriving DecidableEq, Repr

/-- A thrown JS value: either an `Error` instance or any other value,
represented by its `String(...)` conversion. -/
inductive Thrown where
  | err (e : Error)
  | other (s : String)
deriving DecidableEq, Repr

/-- `error instanceof Error ? error : new Error(String(error))`. -/
def Thrown.toError : Thrown → Error
  | .err e => e
  | .other s => { message := s }

/-- A `Record<string, any>` of metadata, as an association list. -/
abbrev Metadata := List (String × String)

/-- Shallow merge `{ ...old, ...fresh }`: keys of `fresh` override `old`. -/
def mergeRecord (old fresh : Metadata) : Metadata :=
  old.filter (fun p => (fresh.lookup p.1).isNone) ++ fresh

/-- `PipeResult<T>`: the operator's return contract. Absent optional fields
are `none` / `false` (their falsy reading, which is all the engine tests). -/
structure PipeResult (α : Type) where
  value : α
  stopped : Bool := false
  error : Option Error := none
  metadata : Option Metadata := none
  debugName : Option String := none
deriving DecidableEq, Repr

/-- `PipeContext<T>`: the state record threaded through the chain. -/
structure PipeContext (α : Type) where
  value : α
  stopped : Bool
  error : Option Error
  metadata : Metadata
  index : Nat
  total : Nat
deriving DecidableEq, Repr

/-- The outcome of invoking an operator: a returned `PipeResult`, or a thrown
value caught by `execute`'s `try/catch`. -/
inductive OpOutcome (α : Type) where
  | ok (r : PipeResult α)
  | thrown (t : Thrown)
deriving DecidableEq, Repr

/-- `Operator<T, R>`: `(value, context) => PipeResult` (possibly throwing).
The chain stores `Operator<any, any>[]`; the embedding fixes one value type. -/
abbrev Operator (α : Type) := α → PipeContext α → OpOutcome α

/-- The `errorHandling` configuration: `"stop" | "continue" | "retry"`. -/
inductive ErrorHandling where
  | stop
  | «continue»
  | retry
deriving DecidableEq, Repr

/-- `PipeConfig`, with the defaults the `Pipe` constructor fills in. -/
structure PipeConfig where
  debug : Bool := false
  errorHandling : ErrorHandling := ErrorHandling.stop
  maxRetries : Nat := 3
deriving DecidableEq, Repr

/-- The `Pipe<T>` class: context, operator list, config. -/
structure Pipe (α : Type) where
  context : PipeContext α
  operators : List (Operator α)
  config : PipeConfig

/-- `createPipe(value, config)`: initial context
`{ value, stopped: false, error: undefined, metadata: {}, index: 0, total: 0 }`. -/
def createPipe (value : α) (config : PipeConfig) : Pipe α :=
  { context :=
      { value := value, stopped := false, error := none, metadata := [],
        index := 0, total := 0 },
    operators := [],
    config := config }

/-- `Pipe.pipe(...operator)`: a new pipe whose operator list is the
concatenation, whose context copies the old one with
`total: this.operators.length + 1`, and which keeps the config. -/
def Pipe.pipe (p : Pipe α) (operator : List (Operator α)) : Pipe α :=
  { context := { p.context with total := p.operators.length + 1 },
    operators := p.operators ++ operator,
    config := p.config }

/-- The loop state of `Pipe.execute`: the running `currentValue` and the
copied `currentContext` (whose `value` field `execute` never updates). -/
structure ExecState (α : Type) where
  curValue : α
  ctx : PipeContext α
deriving DecidableEq, Repr

/-- One iteration of the `for` loop in `Pipe.execute`, for operator `op` at
index `i`: set `currentContext.index`, remember `oldValue`, invoke the
operator inside `try/catch`, then apply the stop / error / metadata rules of
the source in their order. -/
def execStep (config : PipeConfig) (i : Nat) (op : Operator α)
    (st : ExecState α) : ExecState α :=
  let ctx0 := { st.ctx with index := i }
  let oldValue := st.curValue
  match op st.curValue ctx0 with
  | .ok result =>
    if ctx0.stopped || result.stopped then
      { curValue := oldValue, ctx := { ctx0 with stopped := true } }
    else
      let ctx1 :=
        if result.error.isSome then
          { ctx0 with
              error := result.error,
              stopped :=
                if config.errorHandling = ErrorHandling.stop then true
                else ctx0.stopped }
        else ctx0
      let ctx2 :=
        match result.metadata with
        | some m => { ctx1 with metadata := mergeRecord ctx1.metadata m }
        | none => ctx1
      { curValue := result.value, ctx := ctx2 }
  | .thrown t =>
    { curValue := oldValue,
      ctx := { ctx0 with
                 error := some t.toError,
                 stopped :=
                   if config.errorHandling = ErrorHandling.stop then true
                   else ctx0.stopped } }

/-- The `for` loop of `Pipe.execute` over the remaining operators, `i` being
the index of the first of them. -/
def executeAux (config : PipeConfig) :
    List (Operator α) → Nat → ExecState α → ExecState α
  | [], _, st => st
  | op :: rest, i, st => executeAux config rest (i + 1) (execStep config i op st)

/-- The loop state `Pipe.execute` starts from: `currentValue` is the context's
value and `currentContext` is a copy of the pipe's context. -/
def Pipe.initState (p : Pipe α) : ExecState α :=
  { curValue := p.context.value, ctx := p.context }

/-- `Pipe.execute()`: run the loop, then return
`{ value, stopped, error, metadata }` from the final loop state. -/
def Pipe.execute (p : Pipe α) : PipeResult α :=
  let st := executeAux p.config p.operators 0 p.initState
  { value := st.curValue, stopped := st.ctx.stopped, error := st.ctx.error,
    metadata := some st.ctx.metadata }

/-- `Pipe.value()`: `if (result.error && this.config.errorHandling === "stop")`
log and return `undefined` (here `none`), else return the result's value. -/
def Pipe.value (p : Pipe α) : Option α :=
  let result := p.execute
  if result.error.isSome = true ∧ p.config.errorHandling = ErrorHandling.stop
  then none
  else some result.value

/-- `Pipe.toPromise()`: reject with `result.error` when set, else resolve with
`result.value`. -/
def Pipe.toPromise (p : Pipe α) : Except Error α :=
  let result := p.execute
  match result.error with
  | some e => Except.error e
  | none => Except.ok result.value

/-- `PipeResultOrValue<T>`: either a bare value or a `PipeResult` object. -/
inductive PipeResultOrValue (α : Type) where
  | bare (v : α)
  | res (r : PipeResult α)
deriving DecidableEq, Repr

/-- `isPipeResult(value)`: `value && typeof value === "object" && "value" in
value`. A `PipeResult` object passes all three tests (objects are truthy and
carry the `value` key); a bare primitive value fails the `typeof` test. -/
def isPipeResult : PipeResultOrValue α → Bool
  | .res _ => true
  | .bare _ => false

/-- Options record of `pipeResult(value, options)`. -/
structure PipeResultOptions (α : Type) where
  stopped : Bool := false
  error : Option Error := none
  metadata : Option Metadata := none
  debugName : Option String := none
deriving DecidableEq, Repr

/-- `pipeResult(value, options)`: `{ value, ...options }`. -/
def pipeResult (value : α) (options : PipeResultOptions α) : PipeResult α :=
  { value := value, stopped := options.stopped, error := options.error,
    metadata := options.metadata, debugName := options.debugName }

/-- `stop(value)`: `pipeResult(value, { stopped: true, debugName: "stop" })`. -/
def stop (value : α) : PipeResult α :=
  pipeResult value { stopped := true, debugName := some "stop" }

/-- `map(transform)`: apply the transform; wrap a bare return in a
`PipeResult`, or pass a returned `PipeResult` through with a new debug name. -/
def map (transform : α → PipeResultOrValue α) : Operator α :=
  fun value _ =>
    match transform value with
    | .res r =>
        OpOutcome.ok { r with debugName := some ("map / " ++ r.debugName.getD "undefined") }
    | .bare v => OpOutcome.ok (pipeResult v { debugName := some "map" })

/-- `filter(predicate)`: pass the value through only when
`isPipeResult(res) && res.value`; otherwise return a stopped result. A bare
boolean return therefore always takes the stop branch. -/
def filter (predicate : α → PipeResultOrValue Bool) : Operator α :=
  fun value _ =>
    match predicate value with
    | .res r =>
        if r.value then OpOutcome.ok (pipeResult value { debugName := some "filter" })
        else OpOutcome.ok { stop value with debugName := some "filter / stop" }
    | .bare _ => OpOutcome.ok { stop value with debugName := some "filter / stop" }

/-- `tap(effect)` for an effect returning no `PipeResult` (the bare `void`
case, the one the claims use): the value passes through unchanged. -/
def tap (effect : α → Unit) : Operator α :=
  fun value _ =>
    let _ := effect value
    OpOutcome.ok (pipeResult value { debugName := some "tap" })

/-- `catchError(handler?)`: with no context error, pass through; with an
error and no handler, return the value with `error: undefined, stopped:
false`; with a handler, apply it to the value only (the handler signature is
`(v: T)`), wrapping a bare return with `error: undefined, stopped: false`. -/
def catchError (handler : Option (α → PipeResultOrValue α)) : Operator α :=
  fun value ctx =>
    match ctx.error with
    | none =>
        OpOutcome.ok (pipeResult value { debugName := some "catchError / no error" })
    | some _ =>
      match handler with
      | none =>
          OpOutcome.ok (pipeResult value
            { debugName := some "catchError", error := none, stopped := false })
      | some h =>
        match h value with
        | .res r =>
            OpOutcome.ok (pipeResult r.value
              { stopped := r.stopped, error := r.error, metadata := r.metadata,
                debugName := some ("catchError / " ++ r.debugName.getD "undefined") })
        | .bare u =>
            OpOutcome.ok (pipeResult u
              { debugName := some "catchError", error := none, stopped := false })

/-- `throwError(e)`: return (not throw) a result carrying `new Error(e)`. -/
def «throwError» (e : String) : Operator α :=
  fun value _ =>
    OpOutcome.ok
      { value := value, error := some { message := e }, debugName := some "throwError" }

/-- `retry(times)`: the source body is a stub — it returns
`pipeResult(value, { debugName: "retry" })` unconditionally, with the comment
"This would be implemented with proper retry logic". -/
def retry (times : Nat) : Operator α :=
  fun value _ =>
    let _ := times
    OpOutcome.ok (pipeResult value { debugName := some "retry" })

/-- The `PipeContext<T>` of `pipe-operators.ts`:
`{ value, stopped, error?, metadata? }`. -/
structure MContext (α : Type) where
  value : α
  stopped : Bool
  error : Option Error
  metadata : Option Metadata
deriving DecidableEq, Repr

/-- `PipeManagerImpl.retry(times)` of `pipe-operators.ts`, as its action on
the manager's context: while `stopped && error && times > 0`, recurse on
`{ ...context, stopped: false, error: undefined }` with `times - 1`;
otherwise return the context unchanged. -/
def managerRetry (times : Nat) (ctx : MContext α) : MContext α :=
  if h : ctx.stopped = true ∧ ctx.error.isSome = true ∧ 0 < times then
    managerRetry (times - 1) { ctx with stopped := false, error := none }
  else ctx
termination_by times
decreasing_by omega

/-! Helper lemmas about the execution loop. -/

theorem executeAux_append (config : PipeConfig) (l1 l2 : List (Operator α))
    (i : Nat) (st : ExecState α) :
    executeAux config (l1 ++ l2) i st =
      executeAux config l2 (i + l1.length) (executeAux config l1 i st) := by
  induction l1 generalizing i st with
  | nil => simp [executeAux]
  | cons op rest ih =>
      simp only [List.cons_append, executeAux, List.length_cons, List.append_eq]
      rw [ih]
      congr 1
      omega

theorem execStep_stopped (config : PipeConfig) (i : Nat) (op : Operator α)
    (st : ExecState α) (h : st.ctx.stopped = true) :
    (execStep config i op st).curValue = st.curValue ∧
      (execStep config i op st).ctx.stopped = true := by
  simp only [execStep]
  cases op st.curValue { st.ctx with index := i } with
  | ok r => simp [h]
  | thrown t => simp [h]

theorem executeAux_stopped (config : PipeConfig) (ops : List (Operator α))
    (i : Nat) (st : ExecState α) (h : st.ctx.stopped = true) :
    (executeAux config ops i st).curValue = st.curValue ∧
      (executeAux config ops i st).ctx.stopped = true := by
  induction ops generalizing i st with
  | nil => exact ⟨rfl, h⟩
  | cons op rest ih =>
      obtain ⟨h1, h2⟩ := execStep_stopped config i op st h
      obtain ⟨h3, h4⟩ := ih (i + 1) (execStep config i op st) h2
      exact ⟨h3.trans h1, h4⟩

theorem execStep_error_isSome (config : PipeConfig) (i : Nat) (op : Operator α)
    (st : ExecState α) (h : st.ctx.error.isSome = true) :
    (execStep config i op st).ctx.error.isSome = true := by
  simp only [execStep]
  cases op st.curValue { st.ctx with index := i } with
  | ok r =>
      dsimp only
      split
      · simpa using h
      · cases r.metadata <;> dsimp only <;> split <;> simp_all
  | thrown t => simp

theorem executeAux_error_isSome (config : PipeConfig) (ops : List (Operator α))
    (i : Nat) (st : ExecState α) (h : st.ctx.error.isSome = true) :
    (executeAux config ops i st).ctx.error.isSome = true := by
  induction ops generalizing i st with
  | nil => exact h
  | cons op rest ih =>
      exact ih (i + 1) (execStep config i op st) (execStep_error_isSome config i op st h)

/-! Claim theorems. -/

/-- Claim C10: for the `filter` operator factory, a predicate returning a bare
boolean (not a `PipeResult` object) yields an operator that returns a stopped
result regardless of the boolean's truth, because `isPipeResult` rejects bare
values, so the pass branch `isPipeResult(res) && res.value` is never taken. -/
theorem filter_bare_boolean_always_stops (v : α) (p : α → Bool) (c : PipeContext α) :
    isPipeResult (PipeResultOrValue.bare (p v)) = false ∧
      filter (fun x => PipeResultOrValue.bare (p x)) v c =
        OpOutcome.ok
          { value := v, stopped := true, error := none, metadata := none,
            debugName := some "filter / stop" } :=
  ⟨rfl, rfl⟩

/-- Claim C7, counterexample: `createPipe(5).pipe(filter(x => x > 10)).value()`
is not `undefined` — the claim `value() === undefined` fails on the code. -/
theorem filter_scenario_value_not_undefined :
    ((createPipe (5 : Int) {}).pipe
        [filter (fun x => PipeResultOrValue.bare (decide (x > 10)))]).value ≠
      (none : Option Int) := by
  decide

/-- Claim C7, amended: `createPipe(5).pipe(filter(x => x > 10)).execute().stopped
=== true`, but `.value() === 5`: the stop freezes the pre-stop value `5`, no
error is set, and `value()` only returns the undefined sentinel when an error
is set under the `stop` policy. -/
theorem filter_scenario_on_code :
    ((createPipe (5 : Int) {}).pipe
        [filter (fun x => PipeResultOrValue.bare (decide (x > 10)))]).value = some 5 ∧
      ((createPipe (5 : Int) {}).pipe
        [filter (fun x => PipeResultOrValue.bare (decide (x > 10)))]).execute.stopped = true :=
  ⟨rfl, rfl⟩

/-- Claim C3, counterexample: after an operator stops the chain, a later
operator is still invoked by `execute()` — its effect is observable: a chain
whose post-stop operator throws ends with `error` set, while the same chain
without that operator ends with `error` unset. Were post-stop invocation
"skipped entirely", the two results could not differ. -/
theorem post_stop_throw_observable :
    (((createPipe (1 : Int) {}).pipe
        [fun v _ => OpOutcome.ok (stop v),
         fun _ _ => OpOutcome.thrown (Thrown.err { message := "boom" })]).execute.error =
      some { message := "boom" }) ∧
      (((createPipe (1 : Int) {}).pipe
        [fun v _ => OpOutcome.ok (stop v)]).execute.error = none) :=
  ⟨rfl, rfl⟩

/-- Claim C3, amended: once the running context is stopped, each subsequent
operator is still invoked, but its returned result is discarded — the value
reverts to the pre-invocation value, `stopped` stays `true`, and a returned
result's `error` and `metadata` are ignored; an exception thrown by such an
operator does, however, still overwrite the context's `error`. -/
theorem post_stop_invocation_discarded (config : PipeConfig) (i : Nat)
    (op : Operator α) (st : ExecState α) (h : st.ctx.stopped = true) :
    (execStep config i op st).curValue = st.curValue ∧
      (execStep config i op st).ctx.stopped = true ∧
      (∀ r : PipeResult α, op st.curValue { st.ctx with index := i } = OpOutcome.ok r →
        (execStep config i op st).ctx.error = st.ctx.error ∧
          (execStep config i op st).ctx.metadata = st.ctx.metadata) ∧
      (∀ t : Thrown, op st.curValue { st.ctx with index := i } = OpOutcome.thrown t →
        (execStep config i op st).ctx.error = some t.toError) := by
  obtain ⟨h1, h2⟩ := execStep_stopped config i op st h
  refine ⟨h1, h2, ?_, ?_⟩
  · intro r hro
    simp only [execStep, hro]
    simp [h]
  · intro t hro
    simp only [execStep, hro]

/-- Claim C3, amended, witness at a concrete stopped state and a throwing
operator. -/
theorem post_stop_invocation_discarded_witness :
    (execStep {} 5 (fun _ _ => OpOutcome.thrown (Thrown.err { message := "late" }))
        (⟨1, ⟨1, true, none, [], 0, 0⟩⟩ : ExecState Int)).curValue = 1 ∧
      (execStep {} 5 (fun _ _ => OpOutcome.thrown (Thrown.err { message := "late" }))
        (⟨1, ⟨1, true, none, [], 0, 0⟩⟩ : ExecState Int)).ctx.error =
        some { message := "late" } := by
  have h := post_stop_invocation_discarded {} 5
      (fun _ _ => OpOutcome.thrown (Thrown.err { message := "late" }))
      (⟨1, ⟨1, true, none, [], 0, 0⟩⟩ : ExecState Int) rfl
  exact ⟨h.1, h.2.2.2 _ rfl⟩

/-- Claim C9: within one `execute()` run, once the running context's `error`
is set it is never cleared: if the state after some prefix of the operator
list carries an error, the final result of `execute()` still carries one,
whatever the remaining operators (including `catchError`) return. -/
theorem error_never_cleared (p : Pipe α) (pre post : List (Operator α))
    (hops : p.operators = pre ++ post)
    (hmid : (executeAux p.config pre 0 p.initState).ctx.error.isSome = true) :
    p.execute.error.isSome = true := by
  unfold Pipe.execute
  rw [hops, executeAux_append]
  exact executeAux_error_isSome _ _ _ _ hmid

/-- Claim C9, witness: a throwing operator followed by a recovering
`catchError` still leaves the final error set. -/
theorem error_never_cleared_witness :
    ((createPipe (1 : Int) {}).pipe
        [fun _ _ => OpOutcome.thrown (Thrown.err { message := "boom" }),
         catchError (some (fun x => PipeResultOrValue.bare x))]).execute.error.isSome = true := by
  exact error_never_cleared _
    [fun _ _ => OpOutcome.thrown (Thrown.err { message := "boom" })]
    [catchError (some (fun x => PipeResultOrValue.bare x))] rfl rfl

/-- Claim C6: `value()` never raises — when the executed result's error is set
under the `stop` policy it returns the undefined sentinel (`none`), and
otherwise returns the result's value — whereas `toPromise()` rejects with the
result's error exactly when the error is set, and resolves with the result's
value otherwise. -/
theorem value_toPromise_asymmetry (p : Pipe α) :
    ((p.execute.error.isSome = true ∧ p.config.errorHandling = ErrorHandling.stop) →
        p.value = none) ∧
      ((¬ (p.execute.error.isSome = true ∧ p.config.errorHandling = ErrorHandling.stop)) →
        p.value = some p.execute.value) ∧
      (∀ e : Error, p.toPromise = Except.error e ↔ p.execute.error = some e) ∧
      (p.execute.error = none → p.toPromise = Except.ok p.execute.value) := by
  refine ⟨?_, ?_, ?_, ?_⟩
  · intro h
    simp [Pipe.value, h]
  · intro h
    simp only [Pipe.value]
    rw [if_neg h]
  · intro e
    unfold Pipe.toPromise
    cases hE : p.execute.error <;> simp [hE]
  · intro h
    simp [Pipe.toPromise, h]

/-- Claim C6, witness: a chain with a thrown error under the default `stop`
policy has `value()` return the sentinel while `toPromise()` rejects with
that error. -/
theorem value_toPromise_asymmetry_witness :
    ((createPipe (1 : Int) {}).pipe
        [fun _ _ => OpOutcome.thrown (Thrown.err { message := "e" })]).value = none ∧
      ((createPipe (1 : Int) {}).pipe
        [fun _ _ => OpOutcome.thrown (Thrown.err { message := "e" })]).toPromise =
        Except.error { message := "e" } := by
  have h := value_toPromise_asymmetry
    ((createPipe (1 : Int) {}).pipe
      [fun _ _ => OpOutcome.thrown (Thrown.err { message := "e" })])
  exact ⟨h.1 ⟨rfl, rfl⟩, (h.2.2.1 { message := "e" }).mpr rfl⟩

/-- Claim C4: an exception thrown inside any operator never escapes
`execute()` as a raised failure — `execute` totally returns a result whose
`error` is set (non-Error throwables having been wrapped via
`Thrown.toError`), and under the `stop` error-handling policy the result's
`stopped` is `true`. -/
theorem error_containment (config : PipeConfig) (v : α)
    (pre post : List (Operator α)) (thrower : Operator α) (t : Thrown)
    (hthrow : ∀ (w : α) (c : PipeContext α), thrower w c = OpOutcome.thrown t) :
    ((createPipe v config).pipe (pre ++ thrower :: post)).execute.error.isSome = true ∧
      (config.errorHandling = ErrorHandling.stop →
        ((createPipe v config).pipe (pre ++ thrower :: post)).execute.stopped = true) := by
  have hcfg : ((createPipe v config).pipe (pre ++ thrower :: post)).config = config := rfl
  have hops : ((createPipe v config).pipe (pre ++ thrower :: post)).operators =
      pre ++ thrower :: post := rfl
  simp only [Pipe.execute, hcfg, hops, executeAux_append, executeAux]
  constructor
  · apply executeAux_error_isSome
    simp [execStep, hthrow]
  · intro hstop
    refine (executeAux_stopped config post _ _ ?_).2
    simp [execStep, hthrow, hstop]

/-- Claim C4, witness: a non-Error throwable under the default `stop` policy
is contained, with `stopped` true in the result. -/
theorem error_containment_witness :
    ((createPipe (0 : Int) {}).pipe
        ([] ++ (fun _ _ => OpOutcome.thrown (Thrown.other "oops")) :: [])).execute.error.isSome =
      true ∧
      ((createPipe (0 : Int) {}).pipe
        ([] ++ (fun _ _ => OpOutcome.thrown (Thrown.other "oops")) :: [])).execute.stopped = true := by
  have h := error_containment {} (0 : Int) [] []
    (fun _ _ => OpOutcome.thrown (Thrown.other "oops")) (Thrown.other "oops")
    (fun _ _ => rfl)
  exact ⟨h.1, h.2 rfl⟩

theorem executeAux_pure_chain (config : PipeConfig) {fs : List (α → α)}
    {ops : List (Operator α)}
    (hpure : List.Forall₂ (fun f op => ∀ (v : α) (c : PipeContext α), ∃ d,
        op v c = OpOutcome.ok
          { value := f v, stopped := false, error := none, metadata := none,
            debugName := d }) fs ops)
    (i : Nat) (st : ExecState α)
    (hs : st.ctx.stopped = false) (he : st.ctx.error = none) :
    (executeAux config ops i st).curValue = fs.foldl (fun a f => f a) st.curValue ∧
      (executeAux config ops i st).ctx.stopped = false ∧
      (executeAux config ops i st).ctx.error = none := by
  induction hpure generalizing i st with
  | nil => exact ⟨rfl, hs, he⟩
  | @cons f op fs' ops' hfo htl ih =>
      obtain ⟨d, hd⟩ := hfo st.curValue { st.ctx with index := i }
      have hstep : execStep config i op st =
          { curValue := f st.curValue, ctx := { st.ctx with index := i } } := by
        simp only [execStep, hd]
        simp [hs]
      simp only [executeAux, hstep]
      obtain ⟨h1, h2, h3⟩ := ih (i + 1)
        { curValue := f st.curValue, ctx := { st.ctx with index := i } } hs he
      refine ⟨?_, h2, h3⟩
      rw [List.foldl_cons]
      exact h1

/-- Claim C1: order preservation. For every initial value `v` and every list
of pure, non-stopping operators (each one returning, for every input, a plain
non-stopped, error-free result whose value is a fixed function of the input),
the chain built with `.pipe` has `value()` return the left-to-right
composition of those functions. -/
theorem pipe_order_preservation (config : PipeConfig) (fs : List (α → α))
    (ops : List (Operator α))
    (hpure : List.Forall₂ (fun f op => ∀ (v : α) (c : PipeContext α), ∃ d,
        op v c = OpOutcome.ok
          { value := f v, stopped := false, error := none, metadata := none,
            debugName := d }) fs ops)
    (v : α) :
    ((createPipe v config).pipe ops).value = some (fs.foldl (fun a f => f a) v) := by
  have hcfg : ((createPipe v config).pipe ops).config = config := rfl
  have hops : ((createPipe v config).pipe ops).operators = ops := rfl
  obtain ⟨h1, h2, h3⟩ := executeAux_pure_chain config hpure 0
    ((createPipe v config).pipe ops).initState rfl rfl
  simp only [Pipe.value, Pipe.execute, hcfg, hops, h3]
  simpa using h1

/-- Claim C1, witness: two `map` operators over pure transforms applied in
registration order: `(3 + 1) * 2 = 8`. -/
theorem pipe_order_preservation_witness :
    ((createPipe (3 : Int) {}).pipe
        [map (fun x => PipeResultOrValue.bare (x + 1)),
         map (fun x => PipeResultOrValue.bare (x * 2))]).value = some 8 := by
  have hw := pipe_order_preservation {} [fun x : Int => x + 1, fun x : Int => x * 2]
    [map (fun x => PipeResultOrValue.bare (x + 1)),
     map (fun x => PipeResultOrValue.bare (x * 2))]
    (List.Forall₂.cons (fun v c => ⟨some "map", rfl⟩)
      (List.Forall₂.cons (fun v c => ⟨some "map", rfl⟩) List.Forall₂.nil)) 3
  simpa using hw

/-- Claim C2: stop freezes value. If the chain reaches operator `op` not yet
stopped and `op` returns a result with `stopped: true`, then the value of the
final result of `execute()` is the value the run held immediately prior to
`op`'s invocation, no matter how many operators follow. -/
theorem stop_freezes_value (p : Pipe α) (pre post : List (Operator α))
    (op : Operator α) (r : PipeResult α)
    (hops : p.operators = pre ++ op :: post)
    (hnstop : (executeAux p.config pre 0 p.initState).ctx.stopped = false)
    (hr : op (executeAux p.config pre 0 p.initState).curValue
        { (executeAux p.config pre 0 p.initState).ctx with index := pre.length } =
      OpOutcome.ok r)
    (hstop : r.stopped = true) :
    p.execute.value = (executeAux p.config pre 0 p.initState).curValue := by
  simp only [Pipe.execute, hops, executeAux_append, executeAux, Nat.zero_add]
  have hstep : execStep p.config pre.length op (executeAux p.config pre 0 p.initState) =
      { curValue := (executeAux p.config pre 0 p.initState).curValue,
        ctx := { (executeAux p.config pre 0 p.initState).ctx with
                   index := pre.length, stopped := true } } := by
    simp only [execStep, hr]
    simp [hnstop, hstop]
  rw [hstep]
  exact (executeAux_stopped _ _ _ _ rfl).1

/-- Claim C2, witness: `10 → 11` by `map`, then a stopping operator, then a
bypassed `map`; the final value is the pre-stop value `11`. -/
theorem stop_freezes_value_witness :
    ((createPipe (10 : Int) {}).pipe
        [map (fun x => PipeResultOrValue.bare (x + 1)),
         fun v _ => OpOutcome.ok (stop v),
         map (fun x => PipeResultOrValue.bare (x * 2))]).execute.value = 11 := by
  exact (stop_freezes_value
      ((createPipe (10 : Int) {}).pipe
        [map (fun x => PipeResultOrValue.bare (x + 1)),
         fun v _ => OpOutcome.ok (stop v),
         map (fun x => PipeResultOrValue.bare (x * 2))])
      [map (fun x => PipeResultOrValue.bare (x + 1))]
      [map (fun x => PipeResultOrValue.bare (x * 2))]
      (fun v _ => OpOutcome.ok (stop v)) (stop 11) rfl rfl rfl rfl).trans rfl

/-- Claim C5, counterexample: under the default (`stop`) policy,
`pipe(1).pipe(throwingOp, catchError(h)).value()` with `h = x ↦ x + 1` is the
undefined sentinel, not `h(1) = 2`: the claimed recovery equation fails. -/
theorem catch_recovery_fails_under_stop_policy :
    ((createPipe (1 : Int) {}).pipe
        [fun _ _ => OpOutcome.thrown (Thrown.err { message := "boom" }),
         catchError (some (fun x => PipeResultOrValue.bare (x + 1)))]).value = none ∧
      ((createPipe (1 : Int) {}).pipe
        [fun _ _ => OpOutcome.thrown (Thrown.err { message := "boom" }),
         catchError (some (fun x => PipeResultOrValue.bare (x + 1)))]).value ≠
        some ((1 : Int) + 1) := by
  refine ⟨rfl, ?_⟩
  decide

/-- Claim C5, amended: under the `continue` error-handling policy,
`pipe(v).pipe(throwingOp, catchError(h)).value()` does equal `h(v)` (the
handler receives only the value); the context error nonetheless remains set
in `execute()`'s result, and under the default `stop` policy the same chain
yields the undefined sentinel instead. -/
theorem catch_recovery_under_continue_policy (v : α) (h : α → α) (t : Thrown)
    (op : Operator α)
    (hop : ∀ (w : α) (c : PipeContext α), op w c = OpOutcome.thrown t) :
    ((createPipe v { errorHandling := ErrorHandling.«continue» }).pipe
        [op, catchError (some (fun x => PipeResultOrValue.bare (h x)))]).value =
      some (h v) := by
  simp [Pipe.value, Pipe.execute, Pipe.pipe, createPipe, Pipe.initState, executeAux,
    execStep, hop, catchError, pipeResult]

/-- Claim C5, amended, witness: recovery at `v = 1`, `h = x ↦ x + 1` under the
`continue` policy yields `2`. -/
theorem catch_recovery_under_continue_policy_witness :
    ((createPipe (1 : Int) { errorHandling := ErrorHandling.«continue» }).pipe
        [fun _ _ => OpOutcome.thrown (Thrown.err { message := "boom" }),
         catchError (some (fun x => PipeResultOrValue.bare (x + 1)))]).value =
      some 2 := by
  have hw := catch_recovery_under_continue_policy (1 : Int) (fun x => x + 1)
    (Thrown.err { message := "boom" })
    (fun _ _ => OpOutcome.thrown (Thrown.err { message := "boom" })) (fun _ _ => rfl)
  simpa using hw

theorem execStep_policy_congr (c1 c2 : PipeConfig)
    (h1 : c1.errorHandling ≠ ErrorHandling.stop)
    (h2 : c2.errorHandling ≠ ErrorHandling.stop)
    (i : Nat) (op : Operator α) (st : ExecState α) :
    execStep c1 i op st = execStep c2 i op st := by
  simp only [execStep]
  cases op st.curValue { st.ctx with index := i } with
  | ok r => simp [h1, h2]
  | thrown t => simp [h1, h2]

theorem executeAux_policy_congr (c1 c2 : PipeConfig)
    (h1 : c1.errorHandling ≠ ErrorHandling.stop)
    (h2 : c2.errorHandling ≠ ErrorHandling.stop)
    (ops : List (Operator α)) (i : Nat) (st : ExecState α) :
    executeAux c1 ops i st = executeAux c2 ops i st := by
  induction ops generalizing i st with
  | nil => rfl
  | cons op rest ih =>
      simp only [executeAux]
      rw [execStep_policy_congr c1 c2 h1 h2]
      exact ih _ _

/-- Claim C8, code evaluation: nothing in the code re-runs a failing step.
The `retry(times)` operator factory returns the value unchanged for every
input and context (its body is a stub); a chain run under the `retry`
error-handling policy produces exactly the same `execute()` result as one run
under `continue` (no re-attempt before "falling back to stop semantics"); and
`PipeManagerImpl.retry(times)` only clears the `stopped`/`error` flags when
the budget is positive, re-running nothing. -/
theorem retry_never_reruns :
    (∀ (times : Nat) (v : α) (c : PipeContext α),
        retry times v c = OpOutcome.ok (pipeResult v { debugName := some "retry" })) ∧
      (∀ (v : α) (ops : List (Operator α)),
        ((createPipe v { errorHandling := ErrorHandling.retry }).pipe ops).execute =
          ((createPipe v { errorHandling := ErrorHandling.«continue» }).pipe ops).execute) ∧
      (∀ (times : Nat) (ctx : MContext α),
        managerRetry times ctx =
          if ctx.stopped = true ∧ ctx.error.isSome = true ∧ 0 < times then
            { ctx with stopped := false, error := none }
          else ctx) := by
  refine ⟨fun times v c => rfl, fun v ops => ?_, fun times ctx => ?_⟩
  · simp only [Pipe.execute]
    rw [show ((createPipe v { errorHandling := ErrorHandling.retry }).pipe ops).config =
          { errorHandling := ErrorHandling.retry } from rfl,
        show ((createPipe v { errorHandling := ErrorHandling.«continue» }).pipe ops).config =
          { errorHandling := ErrorHandling.«continue» } from rfl,
        show ((createPipe v { errorHandling := ErrorHandling.retry }).pipe ops).operators =
          ops from rfl,
        show ((createPipe v { errorHandling := ErrorHandling.«continue» }).pipe ops).operators =
          ops from rfl,
        show ((createPipe v { errorHandling := ErrorHandling.retry }).pipe ops).initState =
          ((createPipe v { errorHandling := ErrorHandling.«continue» }).pipe ops).initState
          from rfl]
    rw [executeAux_policy_congr { errorHandling := ErrorHandling.retry }
      { errorHandling := ErrorHandling.«continue» } (by decide) (by decide)]
  · by_cases hc : ctx.stopped = true ∧ ctx.error.isSome = true ∧ 0 < times
    · rw [if_pos hc]
      unfold managerRetry
      rw [dif_pos hc]
      unfold managerRetry
      rw [dif_neg (by simp)]
    · rw [if_neg hc]
      unfold managerRetry
      rw [dif_neg hc]

end DvirusPipe
